import Mathlib

/-!
Verification of the dataset-assembly pipeline (`dataset.py`).

The pipeline enumerates image files, shuffles them, splits the list into a
training part and a validation part, detects candidate object regions per
image, exports crops of the regions, writes one normalized YOLO annotation
line per region, and maintains a global `class_counter` and `class_map`.

The shallow embedding below mirrors `dataset.py` statement by statement.
External OpenCV calls (`cv2.imread`, `cv2.Canny`, `cv2.findContours`,
`cv2.boundingRect`) are modelled as data carried by an `Image` value: a
decodable image is `some img` where `img.contourRects` is the list of
bounding rectangles of the contours that `cv2.findContours` discovers, in
discovery order; an undecodable image is `none` (`cv2.imread` returns
`None`, on which `cv2.cvtColor` raises, so the step fails).  Python floats
are modelled as exact rationals; Python's `random.shuffle` is not modelled:
the file lists handed to the pipeline stand for the already-shuffled order.
`int(len(image_files) * 0.8)` is modelled as the natural-number floor
`(4 * n) / 5`, which the IEEE-double computation agrees with for every
feasible list length (the double `0.8` exceeds `4/5` by `2⁻⁵²/5`, so the
rounded product of `n` and `0.8` always lies in `[⌊4n/5⌋, ⌊4n/5⌋ + 1)`
for `n < 2⁵⁰`).
-/

namespace DatasetPipeline

/-- Path-join separator (`os.path.join` on the POSIX paths of the script). -/
def slash : String := "/"

/-- Model of `os.path.join` for the single-component joins the script uses. -/
def pathJoin (a b : String) : String := a ++ slash ++ b

/-- Constant `image_dir` of `dataset.py`. -/
def image_dir : String := "/content/sample_data/images"

/-- Constant `dataset_dir` of `dataset.py`. -/
def dataset_dir : String := "/content/dataset"

/-- Relative train-images path. -/
def imagesTrainRel : String := "images/train"

/-- Relative val-images path. -/
def imagesValRel : String := "images/val"

/-- Relative train-labels path. -/
def labelsTrainRel : String := "labels/train"

/-- Relative val-labels path. -/
def labelsValRel : String := "labels/val"

/-- Relative crop-review path. -/
def unknownObjectsRel : String := "unknown_objects2"

/-- Constant `train_images_dir` of `dataset.py`. -/
def train_images_dir : String := pathJoin dataset_dir imagesTrainRel

/-- Constant `val_images_dir` of `dataset.py`. -/
def val_images_dir : String := pathJoin dataset_dir imagesValRel

/-- Constant `train_labels_dir` of `dataset.py`. -/
def train_labels_dir : String := pathJoin dataset_dir labelsTrainRel

/-- Constant `val_labels_dir` of `dataset.py`. -/
def val_labels_dir : String := pathJoin dataset_dir labelsValRel

/-- Constant `unknown_objects_dir` of `dataset.py`: the single crop-review directory. -/
def unknown_objects_dir : String := pathJoin dataset_dir unknownObjectsRel

/-- The literal `".png"`. -/
def extPng : String := ".png"

/-- The literal `".jpg"`. -/
def extJpg : String := ".jpg"

/-- The literal `".jpeg"`. -/
def extJpeg : String := ".jpeg"

/-- The extension tuple of `f.endswith((".png", ".jpg", ".jpeg"))`. -/
def recognizedExts : List String := [extPng, extJpg, extJpeg]

/-- Python `str.endswith` on one suffix: exact (case-sensitive) suffix test. -/
def pyEndsWith (s suffix : String) : Bool := suffix.toList.isSuffixOf s.toList

/-- The filter of line 105 of `dataset.py`:
`f.endswith((".png", ".jpg", ".jpeg"))`, i.e. `endswith` on a tuple, which
is true when any of the listed suffixes matches (case-sensitively). -/
def hasRecognizedExt (name : String) : Bool :=
  recognizedExts.any (fun e => pyEndsWith name e)

/-- The corpus enumeration of line 105: keep exactly the directory entries
whose name passes `hasRecognizedExt`, in listing order. -/
def image_files (listing : List String) : List String :=
  listing.filter hasRecognizedExt

/-- Lower-case every character of a string. -/
def lowerStr (s : String) : String := String.mk (s.toList.map Char.toLower)

/-- Modelled from the spec (for comparison with `hasRecognizedExt`, which is
the code's behaviour): "images with one of a fixed set of recognized
extensions (case-insensitive)" — suffix matching after lower-casing the
filename, the recognized extensions being lower-case already. -/
def hasRecognizedExtCI (name : String) : Bool :=
  hasRecognizedExt (lowerStr name)

/-- The stem of `os.path.splitext(name)[0]` on a plain file name: everything
before the last dot, except that a name whose every character before the
last dot is a dot (such as `".png"`) has no extension and is its own stem. -/
def splitextRootList (cs : List Char) : List Char :=
  let extLen := (cs.reverse.takeWhile (fun c => c ≠ '.')).length
  if extLen = cs.length then cs
  else
    let stem := cs.take (cs.length - extLen - 1)
    if stem.any (fun c => c ≠ '.') then stem else cs

/-- Function computing `image_id = os.path.splitext(image_file)[0]` (line 70 of `dataset.py`). -/
def splitextRoot (s : String) : String := String.mk (splitextRootList s.toList)

/-- An axis-aligned rectangle as returned by `cv2.boundingRect`:
`(x, y, w, h)` in pixels. -/
structure Rect where
  x : ℕ
  y : ℕ
  w : ℕ
  h : ℕ
deriving DecidableEq, Repr

/-- A decodable image: its pixel dimensions and the bounding rectangles of
the external contours that `cv2.findContours` discovers on its Canny edge
map, in discovery order (the OpenCV calls are external library code, so
their output is modelled as data). -/
structure Image where
  width : ℕ
  height : ℕ
  contourRects : List Rect
deriving DecidableEq, Repr

/-- A directory entry handed to `process_images`: the file name and the
decode result of `cv2.imread` on it (`none` when the image is undecodable,
in which case `cv2.imread` returns `None`). -/
structure FileEntry where
  name : String
  image : Option Image
deriving DecidableEq, Repr

/-- The failure of the detection step on an undecodable image:
`cv2.cvtColor(None, ...)` raises instead of returning regions. -/
inductive DecodeError where
  | decodeFailed
deriving DecidableEq, Repr

/-- The size filter of line 44 of `dataset.py`: `if w > 20 and h > 20`. -/
def keepRect (r : Rect) : Bool := decide (20 < r.w) && decide (20 < r.h)

/-- The surviving rectangles of `detect_objects` on a decoded image:
the contour bounding rectangles that pass `keepRect`, in contour order
(lines 42–47 of `dataset.py`). -/
def detectRects (img : Image) : List Rect :=
  img.contourRects.filter keepRect

/-- Function `detect_objects` of `dataset.py` (lines 30–47): on an undecodable image
(`cv2.imread` returned `None`) the step raises; otherwise it returns the
filtered contour bounding rectangles. -/
def detect_objects (img : Option Image) : Except DecodeError (List Rect) :=
  match img with
  | none => Except.error DecodeError.decodeFailed
  | some im => Except.ok (detectRects im)

/-- The literal `"_object_"` of the key/crop-name scheme. -/
def objSep : String := "_object_"

/-- The key written into `class_map` for the region at 0-based index `idx`
of image `image_id`: the Python f-string with the 1-based index. -/
def objKey (image_id : String) (idx : ℕ) : String :=
  image_id ++ objSep ++ toString (idx + 1)

/-- The crop file name of line 56 of `dataset.py`:
the key plus a `.png` suffix, whatever the source extension was. -/
def cropName (image_id : String) (idx : ℕ) : String :=
  objKey image_id idx ++ extPng

/-- One `cv2.imwrite` performed by `save_cropped_objects`: the destination
path and the rectangle that was cropped (`image[y:y+h, x:x+w]`). -/
structure CropWrite where
  path : String
  rect : Rect
deriving DecidableEq, Repr

/-- The loop body of `save_cropped_objects` from 0-based index `idx` on:
returns the crop writes and the returned `cropped_paths` list (which, as in
the source, collects the bare file names, not the joined paths). -/
def saveCroppedAux (objs : List Rect) (image_id : String) (idx : ℕ) :
    List CropWrite × List String :=
  match objs with
  | [] => ([], [])
  | r :: rest =>
    let fname := cropName image_id idx
    let tail := saveCroppedAux rest image_id (idx + 1)
    (⟨pathJoin unknown_objects_dir fname, r⟩ :: tail.1, fname :: tail.2)

/-- Function `save_cropped_objects` of `dataset.py` (lines 50–61). -/
def save_cropped_objects (objs : List Rect) (image_id : String) :
    List CropWrite × List String :=
  saveCroppedAux objs image_id 0

/-- One annotation line `class_id x_center y_center box_width box_height`
(lines 90–102 of `dataset.py`), with the Python float arithmetic carried
out exactly in ℚ. -/
structure AnnLine where
  class_id : ℕ
  x_center : ℚ
  y_center : ℚ
  box_width : ℚ
  box_height : ℚ
deriving DecidableEq, Repr

/-- The coordinate encoding of lines 92–95 of `dataset.py`. -/
def encodeLine (width height : ℕ) (r : Rect) (cid : ℕ) : AnnLine :=
  { class_id := cid
    x_center := ((r.x : ℚ) + (r.w : ℚ) / 2) / (width : ℚ)
    y_center := ((r.y : ℚ) + (r.h : ℚ) / 2) / (height : ℚ)
    box_width := (r.w : ℚ) / (width : ℚ)
    box_height := (r.h : ℚ) / (height : ℚ) }

/-- The global mutable state of `dataset.py`: `class_counter` and
`class_map` (lines 26–27), the map kept as an ordered association list with
Python-dict insertion semantics. -/
structure RunState where
  class_counter : ℕ
  class_map : List (String × ℕ)
deriving DecidableEq, Repr

/-- The initial state: `class_counter = 0`, `class_map = {}`. -/
def initState : RunState := { class_counter := 0, class_map := [] }

/-- The keys of the association list, in insertion order. -/
def mapKeys (m : List (String × ℕ)) : List String := m.map Prod.fst

/-- Python `dict` assignment `m[k] = v`: overwrite in place when the key is
present, append otherwise. -/
def dictInsert (m : List (String × ℕ)) (k : String) (v : ℕ) :
    List (String × ℕ) :=
  if k ∈ mapKeys m then m.map (fun p => if p.1 = k then (k, v) else p)
  else m ++ [(k, v)]

/-- The annotation loop of lines 90–102 of `dataset.py`, from 0-based index
`idx` on: per region, read `class_counter` as the class id, write the
`class_map` entry, increment the counter, and emit the encoded line. -/
def annotateObjects (image_id : String) (width height : ℕ)
    (objs : List Rect) (idx : ℕ) (st : RunState) : List AnnLine × RunState :=
  match objs with
  | [] => ([], st)
  | r :: rest =>
    let class_id := st.class_counter
    let st1 : RunState :=
      { class_counter := st.class_counter + 1
        class_map := dictInsert st.class_map (objKey image_id idx) class_id }
    let tail := annotateObjects image_id width height rest (idx + 1) st1
    (encodeLine width height r class_id :: tail.1, tail.2)

/-- The literal `".txt"`. -/
def txtExt : String := ".txt"

/-- Everything `process_images` produces for one image that has at least one
detected region: the id, the source file name, the directory the image was
copied to, the annotation file path, the detected regions, the crop writes,
the returned `cropped_paths`, and the annotation lines. -/
structure ImageOutput where
  image_id : String
  src_name : String
  copied_dir : String
  ann_file : String
  detected : List Rect
  crop_writes : List CropWrite
  cropped_paths : List String
  lines : List AnnLine
deriving DecidableEq, Repr

/-- Function `process_images` of `dataset.py` (lines 64–102): per file, detect
regions (raising on an undecodable image), skip the image entirely when no
region survives, otherwise export crops, copy the image, and write the
annotation file, threading the global state through. -/
def process_images (files : List FileEntry) (images_dir labels_dir : String)
    (st : RunState) : Except DecodeError (List ImageOutput × RunState) :=
  match files with
  | [] => Except.ok ([], st)
  | f :: rest =>
    let image_id := splitextRoot f.name
    match f.image with
    | none => Except.error DecodeError.decodeFailed
    | some img =>
      let detected := detectRects img
      if detected.isEmpty then
        process_images rest images_dir labels_dir st
      else
        let cropped := save_cropped_objects detected image_id
        let ann := annotateObjects image_id img.width img.height detected 0 st
        match process_images rest images_dir labels_dir ann.2 with
        | Except.error e => Except.error e
        | Except.ok (outs, st2) =>
          Except.ok
            ({ image_id := image_id
               src_name := f.name
               copied_dir := images_dir
               ann_file := pathJoin labels_dir (image_id ++ txtExt)
               detected := detected
               crop_writes := cropped.1
               cropped_paths := cropped.2
               lines := ann.1 } :: outs, st2)

/-- Value `split_index = int(len(image_files) * 0.8)` (line 109): the
natural-number floor of `0.8 · n`, which the double computation realizes
for every feasible `n` (see the file header). -/
def split_index (n : ℕ) : ℕ := (4 * n) / 5

/-- Slice `train_files = image_files[:split_index]` (line 110). -/
def train_files (files : List FileEntry) : List FileEntry :=
  files.take (split_index files.length)

/-- Slice `val_files = image_files[split_index:]` (line 111). -/
def val_files (files : List FileEntry) : List FileEntry :=
  files.drop (split_index files.length)

/-- The whole run (lines 109–115 of `dataset.py`): split the shuffled file
list, process the training part, then the validation part, starting from
`class_counter = 0` and an empty `class_map`. -/
def runPipeline (files : List FileEntry) :
    Except DecodeError (List ImageOutput × List ImageOutput × RunState) :=
  match process_images (train_files files) train_images_dir train_labels_dir
      initState with
  | Except.error e => Except.error e
  | Except.ok (touts, st1) =>
    match process_images (val_files files) val_images_dir val_labels_dir
        st1 with
    | Except.error e => Except.error e
    | Except.ok (vouts, st2) => Except.ok (touts, vouts, st2)

/-- The class ids of a list of annotation lines, in file order. -/
def lineIds (lines : List AnnLine) : List ℕ := lines.map AnnLine.class_id

/-- All class ids assigned over a list of image outputs, in assignment
order. -/
def assignedIds (outs : List ImageOutput) : List ℕ :=
  (outs.map (fun o => lineIds o.lines)).flatten

/-- The `class_map` keys generated for one image output. -/
def outKeys (o : ImageOutput) : List String :=
  (List.range o.detected.length).map (objKey o.image_id)

/-- All `class_map` keys generated over a list of image outputs, in
insertion order. -/
def genKeys (outs : List ImageOutput) : List String :=
  (outs.map outKeys).flatten

/-- The number of regions `detect_objects` finds for one file (0 for an
undecodable file, which in fact aborts the run). -/
def imageRegions (f : FileEntry) : ℕ :=
  match f.image with
  | none => 0
  | some img => (detectRects img).length

/-- The total number of regions detected across a file list. -/
def totalRegions (files : List FileEntry) : ℕ :=
  (files.map imageRegions).sum

/-- The outputs of a successful run (a placeholder triple for a failing
one); used only to state concrete witness instances. -/
def runOutputs (files : List FileEntry) :
    List ImageOutput × List ImageOutput × RunState :=
  match runPipeline files with
  | Except.ok out => out
  | Except.error _ => ([], [], initState)

/-- The size of the final `class_map` of a run (0 for a failing run). -/
def runMapSize (files : List FileEntry) : ℕ :=
  (runOutputs files).2.2.class_map.length

/-- A 30×40 region at (10, 10): passes the `> 20` size filter. -/
def demoRegion : Rect := ⟨10, 10, 30, 40⟩

/-- A 100×100 image whose single contour yields `demoRegion`. -/
def demoImage : Image := ⟨100, 100, [demoRegion]⟩

/-- A 100×100 image whose single contour yields a 15×15 rectangle, which
the `> 20` filter discards. -/
def smallImage : Image := ⟨100, 100, [⟨0, 0, 15, 15⟩]⟩

/-- The file name `"a.png"`. -/
def namePngA : String := "a.png"

/-- The file name `"b.png"`. -/
def namePngB : String := "b.png"

/-- The file name `"a.jpg"`: same stem as `namePngA`. -/
def nameJpgA : String := "a.jpg"

/-- A two-file corpus with distinct stems; the split sends `a.png` to
training and `b.png` to validation. -/
def demoFiles : List FileEntry :=
  [⟨namePngA, some demoImage⟩, ⟨namePngB, some demoImage⟩]

/-- A two-file corpus whose two files share the stem `a`, so their
`class_map` keys collide. -/
def collideFiles : List FileEntry :=
  [⟨namePngA, some demoImage⟩, ⟨nameJpgA, some demoImage⟩]

/-- The file name `"c.png"`. -/
def nameSmallPng : String := "c.png"

/-- The file name `"bad.png"`. -/
def nameBadPng : String := "bad.png"

/-- The file name `"A.PNG"`: upper-case variant of a recognized extension. -/
def upperA : String := "A.PNG"

/-- A file whose only contour rectangle is 15×15, so no region survives. -/
def smallEntry : FileEntry := ⟨nameSmallPng, some smallImage⟩

/-- An undecodable file (`cv2.imread` returns `None` on it). -/
def badEntry : FileEntry := ⟨nameBadPng, none⟩

/-- The empty string. -/
def emptyStr : String := ""

/-- A placeholder image output, used only as a `headD` default. -/
def outDefault : ImageOutput :=
  { image_id := emptyStr
    src_name := emptyStr
    copied_dir := emptyStr
    ann_file := emptyStr
    detected := []
    crop_writes := []
    cropped_paths := []
    lines := [] }

/-- A placeholder annotation line, used only as a `headD` default. -/
def defaultLine : AnnLine := ⟨0, 0, 0, 0, 0⟩

/-- The image id `"a"`. -/
def demoId : String := "a"

/-- The first training output of the run on `demoFiles`. -/
def demoOut0 : ImageOutput := ((runOutputs demoFiles).1).headD outDefault

/-- The first annotation line produced for `demoImage` under `demoId`. -/
def demoLine : AnnLine :=
  ((annotateObjects demoId 100 100 [demoRegion] 0 initState).1).headD defaultLine

/-! ### Helper lemmas about the annotation loop and the crop exporter -/

theorem annotateObjects_counter (image_id : String) (width height : ℕ)
    (objs : List Rect) :
    ∀ (idx : ℕ) (st : RunState),
      (annotateObjects image_id width height objs idx st).2.class_counter =
        st.class_counter + objs.length := by
  induction objs with
  | nil => intro idx st; simp [annotateObjects]
  | cons r rest ih =>
    intro idx st
    simp only [annotateObjects, List.length_cons, ih]
    omega

theorem annotateObjects_length (image_id : String) (width height : ℕ)
    (objs : List Rect) :
    ∀ (idx : ℕ) (st : RunState),
      (annotateObjects image_id width height objs idx st).1.length =
        objs.length := by
  induction objs with
  | nil => intro idx st; simp [annotateObjects]
  | cons r rest ih =>
    intro idx st
    simp only [annotateObjects, List.length_cons, ih]

theorem annotateObjects_ids (image_id : String) (width height : ℕ)
    (objs : List Rect) :
    ∀ (idx : ℕ) (st : RunState),
      lineIds (annotateObjects image_id width height objs idx st).1 =
        List.range' st.class_counter objs.length := by
  induction objs with
  | nil => intro idx st; simp [annotateObjects, lineIds]
  | cons r rest ih =>
    intro idx st
    have hstep :
        lineIds (annotateObjects image_id width height (r :: rest) idx st).1 =
          st.class_counter ::
            lineIds (annotateObjects image_id width height rest (idx + 1)
              { class_counter := st.class_counter + 1
                class_map := dictInsert st.class_map (objKey image_id idx)
                  st.class_counter }).1 := rfl
    rw [hstep, ih, List.length_cons, List.range'_succ]

theorem annotateObjects_getElem (image_id : String) (width height : ℕ)
    (objs : List Rect) :
    ∀ (idx n : ℕ) (st : RunState) (r : Rect), objs[n]? = some r →
      (annotateObjects image_id width height objs idx st).1[n]? =
        some (encodeLine width height r (st.class_counter + n)) := by
  induction objs with
  | nil => intro idx n st r h; simp at h
  | cons q rest ih =>
    intro idx n st r h
    match n with
    | 0 =>
      simp only [List.getElem?_cons_zero, Option.some.injEq] at h
      subst h
      simp [annotateObjects]
    | n + 1 =>
      simp only [List.getElem?_cons_succ] at h
      have := ih (idx + 1) n
        { class_counter := st.class_counter + 1
          class_map := dictInsert st.class_map (objKey image_id idx)
            st.class_counter } r h
      simp only [annotateObjects, List.getElem?_cons_succ]
      rw [this]
      have harith : st.class_counter + 1 + n = st.class_counter + (n + 1) := by
        omega
      rw [harith]

theorem saveCroppedAux_length_fst (objs : List Rect) (image_id : String) :
    ∀ idx : ℕ, (saveCroppedAux objs image_id idx).1.length = objs.length := by
  induction objs with
  | nil => intro idx; simp [saveCroppedAux]
  | cons r rest ih => intro idx; simp [saveCroppedAux, ih]

theorem saveCroppedAux_length_snd (objs : List Rect) (image_id : String) :
    ∀ idx : ℕ, (saveCroppedAux objs image_id idx).2.length = objs.length := by
  induction objs with
  | nil => intro idx; simp [saveCroppedAux]
  | cons r rest ih => intro idx; simp [saveCroppedAux, ih]

theorem saveCroppedAux_getElem_snd (objs : List Rect) (image_id : String) :
    ∀ (idx n : ℕ) (r : Rect), objs[n]? = some r →
      (saveCroppedAux objs image_id idx).2[n]? =
        some (cropName image_id (idx + n)) := by
  induction objs with
  | nil => intro idx n r h; simp at h
  | cons q rest ih =>
    intro idx n r h
    match n with
    | 0 => simp [saveCroppedAux]
    | n + 1 =>
      simp only [List.getElem?_cons_succ] at h
      simp only [saveCroppedAux, List.getElem?_cons_succ]
      rw [ih (idx + 1) n r h]
      have harith : idx + 1 + n = idx + (n + 1) := by omega
      rw [harith]

theorem saveCroppedAux_getElem_fst (objs : List Rect) (image_id : String) :
    ∀ (idx n : ℕ) (r : Rect), objs[n]? = some r →
      (saveCroppedAux objs image_id idx).1[n]? =
        some { path := pathJoin unknown_objects_dir (cropName image_id (idx + n))
               rect := r } := by
  induction objs with
  | nil => intro idx n r h; simp at h
  | cons q rest ih =>
    intro idx n r h
    match n with
    | 0 =>
      simp only [List.getElem?_cons_zero, Option.some.injEq] at h
      subst h
      simp [saveCroppedAux]
    | n + 1 =>
      simp only [List.getElem?_cons_succ] at h
      simp only [saveCroppedAux, List.getElem?_cons_succ]
      rw [ih (idx + 1) n r h]
      have harith : idx + 1 + n = idx + (n + 1) := by omega
      rw [harith]

theorem mapKeys_length (m : List (String × ℕ)) : (mapKeys m).length = m.length := by
  simp [mapKeys]

theorem mapKeys_dictInsert_of_not_mem (m : List (String × ℕ)) (k : String)
    (v : ℕ) (h : k ∉ mapKeys m) :
    mapKeys (dictInsert m k v) = mapKeys m ++ [k] := by
  rw [dictInsert, if_neg h]
  simp [mapKeys]

theorem annotateObjects_mapKeys (image_id : String) (width height : ℕ)
    (objs : List Rect) :
    ∀ (idx : ℕ) (st : RunState),
      (mapKeys st.class_map ++
        (List.range' idx objs.length).map (objKey image_id)).Nodup →
      mapKeys (annotateObjects image_id width height objs idx st).2.class_map =
        mapKeys st.class_map ++
          (List.range' idx objs.length).map (objKey image_id) := by
  induction objs with
  | nil => intro idx st h; simp [annotateObjects]
  | cons r rest ih =>
    intro idx st h
    rw [List.length_cons, List.range'_succ, List.map_cons] at h ⊢
    have hassoc :
        mapKeys st.class_map ++
            (objKey image_id idx ::
              (List.range' (idx + 1) rest.length).map (objKey image_id)) =
          (mapKeys st.class_map ++ [objKey image_id idx]) ++
            (List.range' (idx + 1) rest.length).map (objKey image_id) := by
      simp
    have hk : objKey image_id idx ∉ mapKeys st.class_map := by
      intro hmem
      exact (List.nodup_append.mp h).2.2 hmem (List.mem_cons_self _ _)
    have hstep :
        (annotateObjects image_id width height (r :: rest) idx st).2 =
          (annotateObjects image_id width height rest (idx + 1)
            { class_counter := st.class_counter + 1
              class_map := dictInsert st.class_map (objKey image_id idx)
                st.class_counter }).2 := rfl
    rw [hstep, hassoc]
    have hkeys :
        mapKeys (dictInsert st.class_map (objKey image_id idx)
          st.class_counter) = mapKeys st.class_map ++ [objKey image_id idx] :=
      mapKeys_dictInsert_of_not_mem _ _ _ hk
    have h' :
        (mapKeys (dictInsert st.class_map (objKey image_id idx)
            st.class_counter) ++
          (List.range' (idx + 1) rest.length).map (objKey image_id)).Nodup := by
      rw [hkeys]
      rw [hassoc] at h
      exact h
    have := ih (idx + 1)
      { class_counter := st.class_counter + 1
        class_map := dictInsert st.class_map (objKey image_id idx)
          st.class_counter } h'
    rw [this, hkeys]

/-! ### Helper lemmas about `process_images` and `runPipeline` -/

theorem assignedIds_cons (o : ImageOutput) (outs : List ImageOutput) :
    assignedIds (o :: outs) = lineIds o.lines ++ assignedIds outs := by
  simp [assignedIds]

theorem assignedIds_append (l₁ l₂ : List ImageOutput) :
    assignedIds (l₁ ++ l₂) = assignedIds l₁ ++ assignedIds l₂ := by
  simp [assignedIds]

theorem genKeys_cons (o : ImageOutput) (outs : List ImageOutput) :
    genKeys (o :: outs) = outKeys o ++ genKeys outs := by
  simp [genKeys]

theorem genKeys_append (l₁ l₂ : List ImageOutput) :
    genKeys (l₁ ++ l₂) = genKeys l₁ ++ genKeys l₂ := by
  simp [genKeys]

theorem totalRegions_cons (f : FileEntry) (rest : List FileEntry) :
    totalRegions (f :: rest) = imageRegions f + totalRegions rest := by
  simp [totalRegions]

theorem totalRegions_split (files : List FileEntry) :
    totalRegions (train_files files) + totalRegions (val_files files) =
      totalRegions files := by
  conv_rhs => rw [show files = train_files files ++ val_files files from
    (List.take_append_drop _ files).symm]
  simp [totalRegions]

theorem process_images_ids (files : List FileEntry) :
    ∀ (d l : String) (st : RunState) (outs : List ImageOutput)
      (st' : RunState),
      process_images files d l st = Except.ok (outs, st') →
      st'.class_counter = st.class_counter + totalRegions files ∧
      assignedIds outs = List.range' st.class_counter (totalRegions files) ∧
      (genKeys outs).length = totalRegions files := by
  induction files with
  | nil =>
    intro d l st outs st' h
    simp only [process_images, Except.ok.injEq, Prod.mk.injEq] at h
    obtain ⟨rfl, rfl⟩ := h
    simp [totalRegions, assignedIds, genKeys]
  | cons f rest ih =>
    intro d l st outs st' h
    rw [process_images] at h
    rcases himg : f.image with _ | img
    · rw [himg] at h
      exact absurd h (by simp)
    · rw [himg] at h
      simp only at h
      by_cases hemp : (detectRects img).isEmpty = true
      · rw [if_pos hemp] at h
        have hreg : imageRegions f = 0 := by
          simp only [imageRegions, himg]
          rw [List.isEmpty_iff.mp hemp]
          rfl
        have := ih d l st outs st' h
        rw [totalRegions_cons, hreg, Nat.zero_add]
        exact this
      · rw [if_neg hemp] at h
        rcases hrec : process_images rest d l
            (annotateObjects (splitextRoot f.name) img.width img.height
              (detectRects img) 0 st).2 with e | ⟨outs2, st2⟩
        · rw [hrec] at h
          exact absurd h (by simp)
        · rw [hrec] at h
          simp only [Except.ok.injEq, Prod.mk.injEq] at h
          obtain ⟨rfl, rfl⟩ := h
          obtain ⟨ihc, ihi, ihk⟩ := ih d l _ outs2 st2 hrec
          have hac := annotateObjects_counter (splitextRoot f.name) img.width
            img.height (detectRects img) 0 st
          have hreg : imageRegions f = (detectRects img).length := by
            simp [imageRegions, himg]
          refine ⟨?_, ?_, ?_⟩
          · rw [ihc, hac, totalRegions_cons, hreg]
            omega
          · rw [assignedIds_cons, ihi, hac]
            have hids := annotateObjects_ids (splitextRoot f.name) img.width
              img.height (detectRects img) 0 st
            rw [hids, List.range'_append_1, totalRegions_cons, hreg,
              Nat.add_comm (totalRegions rest) (detectRects img).length]
          · rw [genKeys_cons, List.length_append, ihk, totalRegions_cons, hreg]
            simp [outKeys]

theorem process_images_outputs (files : List FileEntry) :
    ∀ (d l : String) (st : RunState) (outs : List ImageOutput)
      (st' : RunState),
      process_images files d l st = Except.ok (outs, st') →
      ∀ o ∈ outs,
        o.crop_writes = (save_cropped_objects o.detected o.image_id).1 ∧
        o.cropped_paths = (save_cropped_objects o.detected o.image_id).2 ∧
        o.copied_dir = d := by
  induction files with
  | nil =>
    intro d l st outs st' h
    simp only [process_images, Except.ok.injEq, Prod.mk.injEq] at h
    obtain ⟨rfl, rfl⟩ := h
    intro o ho
    simp at ho
  | cons f rest ih =>
    intro d l st outs st' h
    rw [process_images] at h
    rcases himg : f.image with _ | img
    · rw [himg] at h
      exact absurd h (by simp)
    · rw [himg] at h
      simp only at h
      by_cases hemp : (detectRects img).isEmpty = true
      · rw [if_pos hemp] at h
        exact ih d l st outs st' h
      · rw [if_neg hemp] at h
        rcases hrec : process_images rest d l
            (annotateObjects (splitextRoot f.name) img.width img.height
              (detectRects img) 0 st).2 with e | ⟨outs2, st2⟩
        · rw [hrec] at h
          exact absurd h (by simp)
        · rw [hrec] at h
          simp only [Except.ok.injEq, Prod.mk.injEq] at h
          obtain ⟨rfl, rfl⟩ := h
          intro o ho
          rcases List.mem_cons.mp ho with rfl | ho2
          · exact ⟨rfl, rfl, rfl⟩
          · exact ih d l _ outs2 st2 hrec o ho2

theorem process_images_mapKeys (files : List FileEntry) :
    ∀ (d l : String) (st : RunState) (outs : List ImageOutput)
      (st' : RunState),
      process_images files d l st = Except.ok (outs, st') →
      (mapKeys st.class_map ++ genKeys outs).Nodup →
      mapKeys st'.class_map = mapKeys st.class_map ++ genKeys outs := by
  induction files with
  | nil =>
    intro d l st outs st' h hnd
    simp only [process_images, Except.ok.injEq, Prod.mk.injEq] at h
    obtain ⟨rfl, rfl⟩ := h
    simp [genKeys]
  | cons f rest ih =>
    intro d l st outs st' h hnd
    rw [process_images] at h
    rcases himg : f.image with _ | img
    · rw [himg] at h
      exact absurd h (by simp)
    · rw [himg] at h
      simp only at h
      by_cases hemp : (detectRects img).isEmpty = true
      · rw [if_pos hemp] at h
        exact ih d l st outs st' h hnd
      · rw [if_neg hemp] at h
        rcases hrec : process_images rest d l
            (annotateObjects (splitextRoot f.name) img.width img.height
              (detectRects img) 0 st).2 with e | ⟨outs2, st2⟩
        · rw [hrec] at h
          exact absurd h (by simp)
        · rw [hrec] at h
          simp only [Except.ok.injEq, Prod.mk.injEq] at h
          obtain ⟨rfl, rfl⟩ := h
          rw [genKeys_cons] at hnd ⊢
          have houtk :
              outKeys
                { image_id := splitextRoot f.name
                  src_name := f.name
                  copied_dir := d
                  ann_file := pathJoin l (splitextRoot f.name ++ txtExt)
                  detected := detectRects img
                  crop_writes := (save_cropped_objects (detectRects img)
                    (splitextRoot f.name)).1
                  cropped_paths := (save_cropped_objects (detectRects img)
                    (splitextRoot f.name)).2
                  lines := (annotateObjects (splitextRoot f.name) img.width
                    img.height (detectRects img) 0 st).1 } =
                (List.range' 0 (detectRects img).length).map
                  (objKey (splitextRoot f.name)) := by
            simp [outKeys, List.range_eq_range']
          rw [houtk] at hnd ⊢
          rw [← List.append_assoc] at hnd ⊢
          have hnd1 :
              (mapKeys st.class_map ++
                (List.range' 0 (detectRects img).length).map
                  (objKey (splitextRoot f.name))).Nodup :=
            (List.sublist_append_left _ _).nodup hnd
          have hann := annotateObjects_mapKeys (splitextRoot f.name) img.width
            img.height (detectRects img) 0 st hnd1
          have hnd2 :
              (mapKeys (annotateObjects (splitextRoot f.name) img.width
                  img.height (detectRects img) 0 st).2.class_map ++
                genKeys outs2).Nodup := by
            rw [hann]
            exact hnd
          have := ih d l _ outs2 st2 hrec hnd2
          rw [this, hann]

theorem runPipeline_eq (files : List FileEntry) (touts vouts : List ImageOutput)
    (st : RunState)
    (hrun : runPipeline files = Except.ok (touts, vouts, st)) :
    ∃ st1 : RunState,
      process_images (train_files files) train_images_dir train_labels_dir
          initState = Except.ok (touts, st1) ∧
      process_images (val_files files) val_images_dir val_labels_dir st1 =
        Except.ok (vouts, st) := by
  unfold runPipeline at hrun
  rcases h1 : process_images (train_files files) train_images_dir
      train_labels_dir initState with e | ⟨touts1, st1⟩
  · rw [h1] at hrun
    exact absurd hrun (by simp)
  · rw [h1] at hrun
    simp only at hrun
    rcases h2 : process_images (val_files files) val_images_dir val_labels_dir
        st1 with e | ⟨vouts1, st2⟩
    · rw [h2] at hrun
      exact absurd hrun (by simp)
    · rw [h2] at hrun
      simp only [Except.ok.injEq, Prod.mk.injEq] at hrun
      obtain ⟨rfl, rfl, rfl⟩ := hrun
      exact ⟨st1, rfl, h2⟩

theorem split_index_le (n : ℕ) : split_index n ≤ n := by
  rw [split_index]
  omega

theorem split_index_eq_floor (n : ℕ) :
    split_index n = Nat.floor ((4 : ℚ) / 5 * n) := by
  have hcast : (4 : ℚ) / 5 * n = ((4 * n : ℕ) : ℚ) / ((5 : ℕ) : ℚ) := by
    push_cast
    ring
  rw [split_index, hcast, Nat.floor_div_nat, Nat.floor_natCast]

theorem encodeLine_bounds (width height : ℕ) (r : Rect) (cid : ℕ)
    (hw : 0 < width) (hh : 0 < height)
    (hx : r.x + r.w ≤ width) (hy : r.y + r.h ≤ height) :
    (0 ≤ (encodeLine width height r cid).x_center ∧
      (encodeLine width height r cid).x_center ≤ 1) ∧
    (0 ≤ (encodeLine width height r cid).y_center ∧
      (encodeLine width height r cid).y_center ≤ 1) ∧
    (0 ≤ (encodeLine width height r cid).box_width ∧
      (encodeLine width height r cid).box_width ≤ 1) ∧
    (0 ≤ (encodeLine width height r cid).box_height ∧
      (encodeLine width height r cid).box_height ≤ 1) := by
  have hw' : (0 : ℚ) < width := by exact_mod_cast hw
  have hh' : (0 : ℚ) < height := by exact_mod_cast hh
  have hx' : (r.x : ℚ) + (r.w : ℚ) ≤ (width : ℚ) := by exact_mod_cast hx
  have hy' : (r.y : ℚ) + (r.h : ℚ) ≤ (height : ℚ) := by exact_mod_cast hy
  have hx0 : (0 : ℚ) ≤ (r.x : ℚ) := Nat.cast_nonneg r.x
  have hy0 : (0 : ℚ) ≤ (r.y : ℚ) := Nat.cast_nonneg r.y
  have hw0 : (0 : ℚ) ≤ (r.w : ℚ) := Nat.cast_nonneg r.w
  have hh0 : (0 : ℚ) ≤ (r.h : ℚ) := Nat.cast_nonneg r.h
  simp only [encodeLine]
  refine ⟨⟨?_, ?_⟩, ⟨?_, ?_⟩, ⟨?_, ?_⟩, ⟨?_, ?_⟩⟩
  · exact div_nonneg (by linarith) hw'.le
  · rw [div_le_one hw']
    linarith
  · exact div_nonneg (by linarith) hh'.le
  · rw [div_le_one hh']
    linarith
  · exact div_nonneg hw0 hw'.le
  · rw [div_le_one hw']
    linarith
  · exact div_nonneg hh0 hh'.le
  · rw [div_le_one hh']
    linarith

/-! ### Claim theorems -/

/-- C2: for every image and every annotation line written for it, the
encoded values satisfy `0 ≤ cx ≤ 1`, `0 ≤ cy ≤ 1`, `0 ≤ w ≤ 1`,
`0 ≤ h ≤ 1`, under the precondition that each region rectangle lies within
the source image bounds and the image dimensions are positive. -/
theorem C2_normalized_coords_in_unit_interval (image_id : String)
    (width height : ℕ) (objs : List Rect) (idx : ℕ) (st : RunState)
    (line : AnnLine) (hw : 0 < width) (hh : 0 < height)
    (hin : ∀ r ∈ objs, r.x + r.w ≤ width ∧ r.y + r.h ≤ height)
    (hline : line ∈ (annotateObjects image_id width height objs idx st).1) :
    (0 ≤ line.x_center ∧ line.x_center ≤ 1) ∧
    (0 ≤ line.y_center ∧ line.y_center ≤ 1) ∧
    (0 ≤ line.box_width ∧ line.box_width ≤ 1) ∧
    (0 ≤ line.box_height ∧ line.box_height ≤ 1) := by
  induction objs generalizing idx st with
  | nil => simp [annotateObjects] at hline
  | cons r rest ih =>
    have hstep :
        (annotateObjects image_id width height (r :: rest) idx st).1 =
          encodeLine width height r st.class_counter ::
            (annotateObjects image_id width height rest (idx + 1)
              { class_counter := st.class_counter + 1
                class_map := dictInsert st.class_map (objKey image_id idx)
                  st.class_counter }).1 := rfl
    rw [hstep] at hline
    rcases List.mem_cons.mp hline with rfl | htail
    · exact encodeLine_bounds width height r st.class_counter hw hh
        (hin r (List.mem_cons_self _ _)).1 (hin r (List.mem_cons_self _ _)).2
    · exact ih (idx + 1) _ (fun q hq => hin q (List.mem_cons_of_mem _ hq)) htail

/-- C2 witness: the single line encoded for a 30×40 region at (10, 10) in a
100×100 image has all four normalized coordinates in the unit interval. -/
theorem C2_witness :
    (0 ≤ demoLine.x_center ∧ demoLine.x_center ≤ 1) ∧
    (0 ≤ demoLine.y_center ∧ demoLine.y_center ≤ 1) ∧
    (0 ≤ demoLine.box_width ∧ demoLine.box_width ≤ 1) ∧
    (0 ≤ demoLine.box_height ∧ demoLine.box_height ≤ 1) :=
  C2_normalized_coords_in_unit_interval demoId 100 100 [demoRegion] 0
    initState demoLine (by decide) (by decide) (by decide)
    (List.mem_singleton_self demoLine)

/-- C3: for every image, the number of annotation lines equals the number of
crop files equals the number of Candidate Regions, and the region at 0-based
position `n` yields the `n`-th annotation line, the `n`-th crop file name
(1-based in the name), and the `n`-th crop write. -/
theorem C3_line_crop_region_alignment (image_id : String) (width height : ℕ)
    (objs : List Rect) (st : RunState) (n : ℕ) (r : Rect)
    (hn : objs[n]? = some r) :
    (annotateObjects image_id width height objs 0 st).1.length =
      objs.length ∧
    (save_cropped_objects objs image_id).2.length = objs.length ∧
    (save_cropped_objects objs image_id).1.length = objs.length ∧
    (annotateObjects image_id width height objs 0 st).1[n]? =
      some (encodeLine width height r (st.class_counter + n)) ∧
    (save_cropped_objects objs image_id).2[n]? =
      some (cropName image_id n) ∧
    (save_cropped_objects objs image_id).1[n]? =
      some { path := pathJoin unknown_objects_dir (cropName image_id n)
             rect := r } := by
  refine ⟨annotateObjects_length image_id width height objs 0 st,
    saveCroppedAux_length_snd objs image_id 0,
    saveCroppedAux_length_fst objs image_id 0,
    annotateObjects_getElem image_id width height objs 0 n st r hn, ?_, ?_⟩
  · have := saveCroppedAux_getElem_snd objs image_id 0 n r hn
    rwa [Nat.zero_add] at this
  · have := saveCroppedAux_getElem_fst objs image_id 0 n r hn
    rwa [Nat.zero_add] at this

/-- C3 witness: instantiated for the single 30×40 region of the demo image. -/
theorem C3_witness :
    (annotateObjects demoId 100 100 [demoRegion] 0 initState).1.length =
      [demoRegion].length ∧
    (save_cropped_objects [demoRegion] demoId).2.length =
      [demoRegion].length ∧
    (save_cropped_objects [demoRegion] demoId).1.length =
      [demoRegion].length ∧
    (annotateObjects demoId 100 100 [demoRegion] 0 initState).1[0]? =
      some (encodeLine 100 100 demoRegion (initState.class_counter + 0)) ∧
    (save_cropped_objects [demoRegion] demoId).2[0]? =
      some (cropName demoId 0) ∧
    (save_cropped_objects [demoRegion] demoId).1[0]? =
      some { path := pathJoin unknown_objects_dir (cropName demoId 0)
             rect := demoRegion } :=
  C3_line_crop_region_alignment demoId 100 100 [demoRegion] initState 0
    demoRegion (by decide)

/-- C4 counterexample: the claim says extension matching is case-insensitive,
but the enumerator is case-sensitive: `"A.PNG"` carries a recognized
extension up to case, yet `image_files` excludes it. -/
theorem C4_counterexample :
    hasRecognizedExtCI upperA = true ∧ image_files [upperA] = [] := by
  decide

/-- C4 amended: the Corpus Enumerator selects exactly the listing entries
whose names end with one of `.png`, `.jpg`, `.jpeg` matched
case-sensitively (an exact character-suffix match). -/
theorem C4_extension_filter_case_sensitive (listing : List String)
    (f : String) :
    f ∈ image_files listing ↔
      f ∈ listing ∧ ∃ e ∈ recognizedExts, e.toList <:+ f.toList := by
  simp [image_files, List.mem_filter, hasRecognizedExt, List.any_eq_true,
    pyEndsWith, List.isSuffixOf_iff_suffix]

/-- C5: an image whose detection yields zero regions is skipped entirely:
processing it produces no image output (hence no annotation file, no crop
writes, no image copy) and leaves the counter and the map unchanged —
processing the list with it equals processing the list without it. -/
theorem C5_zero_region_image_skipped (f : FileEntry) (img : Image)
    (rest : List FileEntry) (images_dir labels_dir : String) (st : RunState)
    (himg : f.image = some img) (hdet : detectRects img = []) :
    process_images (f :: rest) images_dir labels_dir st =
      process_images rest images_dir labels_dir st := by
  rw [process_images, himg]
  simp [hdet]

/-- C5 witness: a file whose only contour rectangle is 15×15 is skipped. -/
theorem C5_witness :
    process_images [smallEntry] train_images_dir train_labels_dir initState =
      process_images [] train_images_dir train_labels_dir initState :=
  C5_zero_region_image_skipped smallEntry smallImage [] train_images_dir
    train_labels_dir initState rfl (by decide)

/-- C6: the Split Router assigns exactly the first `floor(0.8 * N)` images
of the shuffled order to training and the remaining `N - floor(0.8 * N)` to
validation; the assignment is a function of the name sequence alone (so it
is fixed before any region detection occurs). -/
theorem C6_split_router (files : List FileEntry) :
    train_files files ++ val_files files = files ∧
    (train_files files).length = split_index files.length ∧
    (val_files files).length = files.length - split_index files.length ∧
    split_index files.length = Nat.floor ((4 : ℚ) / 5 * files.length) ∧
    (train_files files).map FileEntry.name =
      (files.map FileEntry.name).take
        (split_index (files.map FileEntry.name).length) ∧
    (val_files files).map FileEntry.name =
      (files.map FileEntry.name).drop
        (split_index (files.map FileEntry.name).length) := by
  refine ⟨List.take_append_drop _ files, ?_, ?_,
    split_index_eq_floor files.length, ?_, ?_⟩
  · rw [train_files, List.length_take]
    exact Nat.min_eq_left (split_index_le files.length)
  · rw [val_files, List.length_drop]
  · rw [train_files, List.map_take, List.length_map]
  · rw [val_files, List.map_drop, List.length_map]

/-- C7: on an undecodable image, region detection fails with a decode error
rather than returning an empty region list, and processing a batch
containing such an image aborts with that error. -/
theorem C7_undecodable_image_fails (f : FileEntry) (rest : List FileEntry)
    (images_dir labels_dir : String) (st : RunState)
    (hf : f.image = none) :
    detect_objects f.image = Except.error DecodeError.decodeFailed ∧
    (∀ objs : List Rect, detect_objects f.image ≠ Except.ok objs) ∧
    process_images (f :: rest) images_dir labels_dir st =
      Except.error DecodeError.decodeFailed := by
  rw [hf]
  refine ⟨rfl, ?_, ?_⟩
  · intro objs h
    exact absurd h (by simp [detect_objects])
  · rw [process_images, hf]

/-- C7 witness: instantiated at a concrete undecodable file. -/
theorem C7_witness :
    detect_objects badEntry.image = Except.error DecodeError.decodeFailed ∧
    (∀ objs : List Rect,
      detect_objects badEntry.image ≠ Except.ok objs) ∧
    process_images [badEntry] train_images_dir train_labels_dir initState =
      Except.error DecodeError.decodeFailed :=
  C7_undecodable_image_fails badEntry [] train_images_dir train_labels_dir
    initState rfl

/-- C8: a contour bounding rectangle is kept iff both its width and height
are strictly greater than 20 pixels; a 15×15 rectangle is discarded, and an
image whose only contour yields one contributes zero regions. -/
theorem C8_min_size_filter :
    (∀ (img : Image) (r : Rect),
        r ∈ detectRects img ↔
          r ∈ img.contourRects ∧ 20 < r.w ∧ 20 < r.h) ∧
    detectRects smallImage = [] ∧
    detect_objects (some smallImage) = Except.ok [] := by
  refine ⟨fun img r => ?_, rfl, rfl⟩
  simp [detectRects, List.mem_filter, keepRect]

/-- C1 counterexample: two source files that differ only in extension
(`a.png`, `a.jpg`) both produce the `class_map` key `a_object_1`, so after a
successful run on them the map has 1 entry while 2 regions were detected —
the Label Map does not contain one entry per detected region. -/
theorem C1_counterexample :
    (runPipeline collideFiles).isOk = true ∧
    totalRegions collideFiles = 2 ∧
    runMapSize collideFiles = 1 := by
  decide

/-- C1 amended: in every successful run the Placeholder Label IDs are
globally unique and strictly increasing in assignment order, and the final
counter and the number of assigned IDs both equal the total number of
regions detected across the whole corpus; the Label Map size equals that
total only under the additional precondition that the generated Label Map
keys are pairwise distinct (which two files sharing a stem violate). -/
theorem C1_label_ids_unique_and_increasing (files : List FileEntry)
    (touts vouts : List ImageOutput) (st : RunState)
    (hrun : runPipeline files = Except.ok (touts, vouts, st)) :
    (assignedIds (touts ++ vouts)).Pairwise (· < ·) ∧
    st.class_counter = totalRegions files ∧
    (assignedIds (touts ++ vouts)).length = totalRegions files ∧
    ((genKeys (touts ++ vouts)).Nodup →
      st.class_map.length = totalRegions files) := by
  obtain ⟨st1, h1, h2⟩ := runPipeline_eq files touts vouts st hrun
  obtain ⟨hc1, hi1, hk1⟩ := process_images_ids (train_files files)
    train_images_dir train_labels_dir initState touts st1 h1
  obtain ⟨hc2, hi2, hk2⟩ := process_images_ids (val_files files)
    val_images_dir val_labels_dir st1 vouts st h2
  have hinit : initState.class_counter = 0 := rfl
  have hids : assignedIds (touts ++ vouts) =
      List.range' 0 (totalRegions files) := by
    rw [assignedIds_append, hi1, hi2, hc1, hinit, List.range'_append_1,
      Nat.add_comm (totalRegions (val_files files)), totalRegions_split]
  refine ⟨?_, ?_, ?_, ?_⟩
  · rw [hids]
    exact List.pairwise_lt_range' 0 (totalRegions files)
  · rw [hc2, hc1, hinit, Nat.zero_add, totalRegions_split]
  · rw [hids, List.length_range']
  · intro hnd
    have hnd' : (genKeys touts ++ genKeys vouts).Nodup := by
      rw [← genKeys_append]
      exact hnd
    have hinitkeys : mapKeys initState.class_map = [] := rfl
    have hmk1 : mapKeys st1.class_map =
        mapKeys initState.class_map ++ genKeys touts := by
      refine process_images_mapKeys (train_files files) train_images_dir
        train_labels_dir initState touts st1 h1 ?_
      rw [hinitkeys, List.nil_append]
      exact (List.nodup_append.mp hnd').1
    have hmk2 : mapKeys st.class_map =
        mapKeys st1.class_map ++ genKeys vouts := by
      refine process_images_mapKeys (val_files files) val_images_dir
        val_labels_dir st1 vouts st h2 ?_
      rw [hmk1, hinitkeys, List.nil_append]
      exact hnd'
    have hlen := congrArg List.length hmk2
    rw [mapKeys_length, hmk1, hinitkeys, List.nil_append,
      List.length_append] at hlen
    rw [hlen, hk1, hk2, totalRegions_split]

/-- C1 witness: the amended statement evaluated on a successful two-file run
with distinct stems. -/
theorem C1_witness :
    (assignedIds ((runOutputs demoFiles).1 ++
      (runOutputs demoFiles).2.1)).Pairwise (· < ·) ∧
    (runOutputs demoFiles).2.2.class_counter = totalRegions demoFiles ∧
    (assignedIds ((runOutputs demoFiles).1 ++
      (runOutputs demoFiles).2.1)).length = totalRegions demoFiles ∧
    ((genKeys ((runOutputs demoFiles).1 ++
        (runOutputs demoFiles).2.1)).Nodup →
      (runOutputs demoFiles).2.2.class_map.length = totalRegions demoFiles) :=
  C1_label_ids_unique_and_increasing demoFiles (runOutputs demoFiles).1
    (runOutputs demoFiles).2.1 (runOutputs demoFiles).2.2 (by rfl)

/-- C9: because the training files are processed to completion before any
validation file while the counter only grows, every Placeholder Label ID
assigned to a region of a training image is strictly less than every ID
assigned to a region of a validation image in the same successful run. -/
theorem C9_train_ids_below_val_ids (files : List FileEntry)
    (touts vouts : List ImageOutput) (st : RunState)
    (hrun : runPipeline files = Except.ok (touts, vouts, st))
    (i j : ℕ) (hi : i ∈ assignedIds touts) (hj : j ∈ assignedIds vouts) :
    i < j := by
  obtain ⟨st1, h1, h2⟩ := runPipeline_eq files touts vouts st hrun
  obtain ⟨hc1, hi1, _⟩ := process_images_ids (train_files files)
    train_images_dir train_labels_dir initState touts st1 h1
  obtain ⟨_, hi2, _⟩ := process_images_ids (val_files files)
    val_images_dir val_labels_dir st1 vouts st h2
  rw [hi1] at hi
  rw [hi2] at hj
  have hib := List.mem_range'_1.mp hi
  have hjb := List.mem_range'_1.mp hj
  have hinit : initState.class_counter = 0 := rfl
  rw [hinit] at hc1 hib
  omega

/-- C9 witness: in the two-file demo run the single training ID is 0, the
single validation ID is 1, and the theorem yields 0 < 1. -/
theorem C9_witness :
    0 ∈ assignedIds (runOutputs demoFiles).1 ∧
    1 ∈ assignedIds (runOutputs demoFiles).2.1 ∧ 0 < 1 :=
  ⟨by decide, by decide,
    C9_train_ids_below_val_ids demoFiles (runOutputs demoFiles).1
      (runOutputs demoFiles).2.1 (runOutputs demoFiles).2.2 (by rfl) 0 1
      (by decide) (by decide)⟩

/-- C10: for every image of a successful run (train or validation alike) and
every region at 0-based position `n`, the exported crop file is named
`image_id ++ "_object_" ++ (n+1) ++ ".png"` — a `.png` suffix regardless of
the source extension — its write goes to the single shared crop-review
directory, and the returned bookkeeping list holds these names in region
order (one per region). -/
theorem C10_crop_naming_and_shared_dir (files : List FileEntry)
    (touts vouts : List ImageOutput) (st : RunState)
    (hrun : runPipeline files = Except.ok (touts, vouts, st))
    (o : ImageOutput) (ho : o ∈ touts ++ vouts) (n : ℕ) (r : Rect)
    (hn : o.detected[n]? = some r) :
    o.cropped_paths[n]? = some (cropName o.image_id n) ∧
    cropName o.image_id n =
      ((o.image_id ++ objSep) ++ toString (n + 1)) ++ extPng ∧
    o.crop_writes[n]? =
      some { path := pathJoin unknown_objects_dir (cropName o.image_id n)
             rect := r } ∧
    o.cropped_paths.length = o.detected.length := by
  obtain ⟨st1, h1, h2⟩ := runPipeline_eq files touts vouts st hrun
  have hstruct :
      o.crop_writes = (save_cropped_objects o.detected o.image_id).1 ∧
      o.cropped_paths = (save_cropped_objects o.detected o.image_id).2 := by
    rcases List.mem_append.mp ho with hmem | hmem
    · obtain ⟨hcw, hcp, _⟩ := process_images_outputs (train_files files)
        train_images_dir train_labels_dir initState touts st1 h1 o hmem
      exact ⟨hcw, hcp⟩
    · obtain ⟨hcw, hcp, _⟩ := process_images_outputs (val_files files)
        val_images_dir val_labels_dir st1 vouts st h2 o hmem
      exact ⟨hcw, hcp⟩
  obtain ⟨hcw, hcp⟩ := hstruct
  refine ⟨?_, rfl, ?_, ?_⟩
  · rw [hcp]
    have := saveCroppedAux_getElem_snd o.detected o.image_id 0 n r hn
    rwa [Nat.zero_add] at this
  · rw [hcw]
    have := saveCroppedAux_getElem_fst o.detected o.image_id 0 n r hn
    rwa [Nat.zero_add] at this
  · rw [hcp]
    exact saveCroppedAux_length_snd o.detected o.image_id 0

/-- C10 witness: instantiated at the first training output of the demo run
and its single region. -/
theorem C10_witness :
    demoOut0.cropped_paths[0]? = some (cropName demoOut0.image_id 0) ∧
    cropName demoOut0.image_id 0 =
      ((demoOut0.image_id ++ objSep) ++ toString (0 + 1)) ++ extPng ∧
    demoOut0.crop_writes[0]? =
      some { path := pathJoin unknown_objects_dir (cropName demoOut0.image_id 0)
             rect := demoRegion } ∧
    demoOut0.cropped_paths.length = demoOut0.detected.length :=
  C10_crop_naming_and_shared_dir demoFiles (runOutputs demoFiles).1
    (runOutputs demoFiles).2.1 (runOutputs demoFiles).2.2 (by rfl) demoOut0
    (List.mem_append_left _ (List.mem_singleton_self demoOut0)) 0 demoRegion
    (by decide)

end DatasetPipeline
